import Mathlib

/-
Verification of the timehop/golog `log` package (src/log/logging.go).

Shallow embedding conventions:
- Go `interface{}` arguments are modelled by their `fmt.Sprintf("%v", ·)`
  string representations (every use in the source stringifies them, and the
  two literal comparisons against "golog_id" compare with that string).
- The Go `map[string]string` values (`staticArgs`, `entry.Fields`) are
  modelled as association lists with unique keys, maintained by `upsert`
  (Go map assignment semantics).  Go's map iteration order is unspecified;
  the list order stands for one iteration order, and every theorem stated
  about maps is order-independent (lookups, key multiplicity).
- `io.Writer` output and `os.Exit` are modelled as an explicit `Effect`
  trace; `log.Logger.Println msg` writes `msg ++ "\n"` (the timestamp
  decorations the standard library prepends when flags are nonzero are an
  external collaborator, out of scope per the spec, and are not part of
  the modelled line).
- `time.Now().String()` is threaded in as an explicit `now : String`.
-/

namespace Golog

/-- LogLevel constants (logging.go:47-54).  Go's `LogLevel` is `int`, so the
threshold is an `Int` (SetLevel accepts any integer). -/
def LevelFatal : Int := 0

def LevelError : Int := 1

def LevelWarn : Int := 2

def LevelInfo : Int := 3

def LevelDebug : Int := 4

def LevelTrace : Int := 5

/-- LogLevelName constants (logging.go:58-65). -/
def LevelFatalName : String := "FATAL"

def LevelErrorName : String := "ERROR"

def LevelWarnName : String := "WARN"

def LevelInfoName : String := "INFO"

def LevelDebugName : String := "DEBUG"

def LevelTraceName : String := "TRACE"

/-- flattenKeyValues (logging.go:558-565): joins the string representations
of all elements with ", ". -/
def flattenKeyValues (keysAndValues : List String) : String :=
  String.intercalate ", " keysAndValues

/-- Helper: the consecutive (key, value) pairs of a flat argument list, the
pairing performed by the `i%2 == 1` loops in expandKeyValuePairs
(logging.go:512-516); a dangling last element is ignored. -/
def pairsOf : List String → List (String × String)
  | [] => []
  | [_] => []
  | k :: v :: rest => (k, v) :: pairsOf rest

/-- expandKeyValuePairs (logging.go:508-519): renders consecutive pairs as
k='v', space-joined; the last dangling element of an odd list is ignored. -/
def expandKeyValuePairs (keyValuePairs : List String) : String :=
  String.intercalate " "
    ((pairsOf keyValuePairs).map (fun kv => kv.1 ++ "='" ++ kv.2 ++ "'"))

/-- Helper: the elements at even indices of a flat list (the positions the
source's `i%2 == 0` checks inspect). -/
def evenIdxElems : List String → List String
  | [] => []
  | [k] => [k]
  | k :: _ :: rest => k :: evenIdxElems rest

/-- Go map lookup on the association-list model (first match; keys are
unique whenever the list models a map). -/
def lookupKey : List (String × String) → String → Option String
  | [], _ => none
  | kv :: rest, key => if kv.1 = key then some kv.2 else lookupKey rest key

/-- The key list of a field collection. -/
def fieldKeys (l : List (String × String)) : List String :=
  l.map Prod.fst

/-- Go map assignment `m[key] = value` on the association-list model:
replaces the binding in place when the key is present, appends otherwise. -/
def upsert : List (String × String) → String → String → List (String × String)
  | [], key, value => [(key, value)]
  | kv :: rest, key, value =>
      if kv.1 = key then (key, value) :: rest else kv :: upsert rest key value

/-- The `currentKey` loop shared by New (logging.go:276-283) and
formatLogEventAsJson (logging.go:536-543): walks a flat list, elements at
even indices become the current key and elements at odd indices are
assigned into the map; a dangling last key is never assigned. -/
def applyPairs : List (String × String) → List String → List (String × String)
  | m, [] => m
  | m, [_] => m
  | m, k :: v :: rest => applyPairs (upsert m k v) rest

/-- Left-biased choice on optional lookups (the value the merged collection
yields: the overlay's if present, else the base's). -/
def orO : Option String → Option String → Option String
  | some v, _ => some v
  | none, o => o

/-- The static-field combination loop of formatLogEventAsPlainText
(logging.go:466-481): each static (key, value) pair is prepended to the
argument list unless the key already occurs at an even index of the
current argument list (`existsInArgs`).  Prepending two elements preserves
the parity of existing positions, exactly as in the source. -/
def combineStaticAndArgs : List (String × String) → List String → List String
  | [], args => args
  | kv :: rest, args =>
      combineStaticAndArgs rest
        (if kv.1 ∈ evenIdxElems args then args else kv.1 :: kv.2 :: args)

/-- The golog_id extraction loop of formatLogEventAsPlainText
(logging.go:484-492): the first element equal to "golog_id" at an even
index that still has a value after it is removed together with that value,
which becomes the id; a dangling "golog_id" with no value after it does
not match (`i < len(args)-1`). -/
def extractGologId : List String → String × List String
  | [] => ("", [])
  | [x] => ("", [x])
  | k :: v :: rest =>
      if k = "golog_id" then (v, rest)
      else
        let r := extractGologId rest
        (r.1, k :: v :: r.2)

/-- formatLogEventAsPlainText (logging.go:452-504).  The
`len(args)+len(staticFields) > 0` guard in the source only skips the
combination loop when both are empty, in which case the loop is a no-op,
so it is dropped here. -/
def formatLogEventAsPlainText (flags : Int) (level : String)
    (description : String) (staticFields : List (String × String))
    (args : List String) : String :=
  let items0 : List String := if 0 < flags then [""] else []
  let items1 : List String := items0 ++ [level]
  let combined := combineStaticAndArgs staticFields args
  let idArgs := extractGologId combined
  let items2 : List String :=
    if idArgs.1 ≠ "" then items1 ++ [idArgs.1] else items1
  let items3 : List String := items2 ++ [description]
  let items4 : List String :=
    if idArgs.2 ≠ [] then items3 ++ [expandKeyValuePairs idArgs.2] else items3
  String.intercalate " | " items4

/-- jsonLogEntry (logging.go:551-556), with json struct tags
ts / lvl / msg,omitempty / fields,omitempty. -/
structure jsonLogEntry where
  Timestamp : String
  Level : String
  Message : String
  Fields : List (String × String)
deriving DecidableEq, Repr

/-- formatLogEventAsJson (logging.go:521-549), up to the json.Marshal call:
builds the entry from the render-time timestamp, the level name, the
message, a copy of the static fields and the extra key/value pairs (extra
pairs overwrite static keys via map assignment; a dangling last key of an
odd list sets `currentKey` but is never assigned).  The `flags` parameter
is received and ignored, as in the source. -/
def formatLogEventAsJson (now : String) (flags : Int) (level : String)
    (msg : String) (staticFields : List (String × String))
    (extraFields : List String) : jsonLogEntry :=
  { Timestamp := now
    Level := level
    Message := msg
    Fields := applyPairs staticFields extraFields }

/-- A member of the marshalled JSON document: a string value or the flat
string-to-string `fields` object (this entry type nests no deeper). -/
inductive jsonValue where
  | str : String → jsonValue
  | obj : List (String × String) → jsonValue
deriving DecidableEq, Repr

/-- Insertion of one field into a key-sorted list (encoding/json renders
map keys in sorted order). -/
def insertByKey (p : String × String) :
    List (String × String) → List (String × String)
  | [] => [p]
  | q :: rest => if p.1 ≤ q.1 then p :: q :: rest else q :: insertByKey p rest

/-- Key-sorted view of a field map, as encoding/json marshals it. -/
def sortByKey (l : List (String × String)) : List (String × String) :=
  l.foldr insertByKey []

/-- The members of the document `json.Marshal` produces for a jsonLogEntry,
in struct-tag order: `ts` and `lvl` always; `msg` omitted when empty
(omitempty); `fields` omitted when the map is empty (omitempty), rendered
with sorted keys otherwise. -/
def jsonEntryMembers (e : jsonLogEntry) : List (String × jsonValue) :=
  [("ts", jsonValue.str e.Timestamp), ("lvl", jsonValue.str e.Level)]
    ++ (if e.Message = "" then [] else [("msg", jsonValue.str e.Message)])
    ++ (if e.Fields = [] then [] else [("fields", jsonValue.obj (sortByKey e.Fields))])

/-- Minimal model of encoding/json string escaping; the characters the
claims exercise need no escaping. -/
def escapeJsonChar (c : Char) : String :=
  if c = '"' then "\\\""
  else if c = '\\' then "\\\\"
  else if c = '\n' then "\\n"
  else if c = '\t' then "\\t"
  else if c = '\r' then "\\r"
  else String.singleton c

/-- Escape a string for inclusion in a JSON document. -/
def escapeJsonString (s : String) : String :=
  String.join (s.toList.map escapeJsonChar)

/-- Serialize one document member. -/
def jsonValueToString : jsonValue → String
  | jsonValue.str s => "\"" ++ escapeJsonString s ++ "\""
  | jsonValue.obj fields =>
      "\x7b"
        ++ String.intercalate ","
          (fields.map (fun kv =>
            "\"" ++ escapeJsonString kv.1 ++ "\":\"" ++ escapeJsonString kv.2 ++ "\""))
        ++ "\x7d"

/-- The byte output of `json.Marshal` on a jsonLogEntry (always succeeds:
the entry is made of strings only). -/
def jsonEntryToString (e : jsonLogEntry) : String :=
  "\x7b"
    ++ String.intercalate ","
      ((jsonEntryMembers e).map (fun kv =>
        "\"" ++ escapeJsonString kv.1 ++ "\":" ++ jsonValueToString kv.2))
    ++ "\x7d"

/-- The tail of formatLogEventAsJson (logging.go:545-548):
`encodedEntry, _ := json.Marshal(entry); return string(encodedEntry)`.
The marshal primitive is abstracted as a function that may report failure
(`none`); on failure the error is discarded and `encodedEntry` is the nil
byte slice, whose string conversion is the empty string. -/
def renderJsonEntryWith (marshal : jsonLogEntry → Option String)
    (entry : jsonLogEntry) : String :=
  match marshal entry with
  | some encoded => encoded
  | none => ""

/-- Decidable substring test (structural, over the character lists). -/
def leadsWith : List Char → List Char → Bool
  | [], _ => true
  | _ :: _, [] => false
  | a :: as, b :: bs => a = b && leadsWith as bs

/-- Whether the character list `sub` occurs inside the second list. -/
def hasSubChars (sub : List Char) : List Char → Bool
  | [] => sub.isEmpty
  | c :: rest => leadsWith sub (c :: rest) || hasSubChars sub rest

/-- Whether `sub` occurs inside `s`. -/
def hasSub (s sub : String) : Bool :=
  hasSubChars sub.toList s.toList

/-- Render-mode selector: the source stores one of the two formatter
functions in the logger (logging.go:242-257); the closed choice is
modelled as a tag. -/
inductive RenderMode where
  | plainText : RenderMode
  | json : RenderMode
deriving DecidableEq, Repr

/-- The logger struct (logging.go:324-333).  The `*log.Logger` sink and
the prefix string only carry bytes to the outside and are represented by
the Effect trace; `formatLogEvent` (a function field) is represented by
the render-mode tag. -/
structure logger where
  level : Int
  formatMode : RenderMode
  staticArgs : List (String × String)
  flags : Int
deriving DecidableEq, Repr

/-- Observable side effects of one call: a line written to the sink
(including the trailing newline Println appends) or a process exit.  The
list order is the temporal order of the effects. -/
inductive Effect where
  | writeLine : String → Effect
  | exit : Int → Effect
deriving DecidableEq, Repr

/-- Dispatch on the stored formatter (logging.go:416). -/
def formatEvent : RenderMode → String → Int → String → String →
    List (String × String) → List String → String
  | RenderMode.plainText, _, flags, level, description, staticFields, args =>
      formatLogEventAsPlainText flags level description staticFields args
  | RenderMode.json, now, flags, level, msg, staticFields, extra =>
      jsonEntryToString (formatLogEventAsJson now flags level msg staticFields extra)

/-- The odd-length normalization at the top of logger.logMessage
(logging.go:402-414): an odd list is replaced by the corruption fallback
pair, except that a leading "golog_id" key with its value is first carved
out and preserved (`len >= 2 && keysAndValues[0] == "golog_id"`; with an
odd length this is exactly the pattern below). -/
def fixCorruptKeysAndValues (keysAndValues : List String) : List String :=
  if keysAndValues.length % 2 = 1 then
    match keysAndValues with
    | k :: v :: rest =>
        if k = "golog_id" then
          ["golog_id", v, "corruptFields", flattenKeyValues rest]
        else ["corruptFields", flattenKeyValues (k :: v :: rest)]
    | _ => ["corruptFields", flattenKeyValues keysAndValues]
  else keysAndValues

/-- logger.logMessage (logging.go:396-418): normalize odd argument lists,
format via the stored formatter, write the line with Println. -/
def logMessage (s : logger) (now : String) (level : String)
    (description : String) (keysAndValues : List String) : List Effect :=
  let kvs := fixCorruptKeysAndValues keysAndValues
  [Effect.writeLine
    (formatEvent s.formatMode now s.flags level description s.staticArgs kvs ++ "\n")]

/-- logger.Fatal (logging.go:336-342): gate, log, then osExit(1). -/
def logger.Fatal (s : logger) (now description : String)
    (keysAndValues : List String) : logger × List Effect :=
  if s.level < LevelFatal then (s, [])
  else (s, logMessage s now LevelFatalName description keysAndValues ++ [Effect.exit 1])

/-- logger.Error (logging.go:345-350). -/
def logger.Error (s : logger) (now description : String)
    (keysAndValues : List String) : logger × List Effect :=
  if s.level < LevelError then (s, [])
  else (s, logMessage s now LevelErrorName description keysAndValues)

/-- logger.Warn (logging.go:356-361). -/
def logger.Warn (s : logger) (now description : String)
    (keysAndValues : List String) : logger × List Effect :=
  if s.level < LevelWarn then (s, [])
  else (s, logMessage s now LevelWarnName description keysAndValues)

/-- logger.Info (logging.go:367-372). -/
def logger.Info (s : logger) (now description : String)
    (keysAndValues : List String) : logger × List Effect :=
  if s.level < LevelInfo then (s, [])
  else (s, logMessage s now LevelInfoName description keysAndValues)

/-- logger.Debug (logging.go:378-383). -/
def logger.Debug (s : logger) (now description : String)
    (keysAndValues : List String) : logger × List Effect :=
  if s.level < LevelDebug then (s, [])
  else (s, logMessage s now LevelDebugName description keysAndValues)

/-- logger.Trace (logging.go:389-394). -/
def logger.Trace (s : logger) (now description : String)
    (keysAndValues : List String) : logger × List Effect :=
  if s.level < LevelTrace then (s, [])
  else (s, logMessage s now LevelTraceName description keysAndValues)

/-- logger.SetLevel (logging.go:420-422). -/
def logger.SetLevel (s : logger) (level : Int) : logger :=
  { s with level := level }

/-- logger.SetTimestampFlags (logging.go:432-435). -/
def logger.SetTimestampFlags (s : logger) (flags : Int) : logger :=
  { s with flags := flags }

/-- logger.SetStaticField (logging.go:438-440). -/
def logger.SetStaticField (s : logger) (name value : String) : logger :=
  { s with staticArgs := upsert s.staticArgs name value }

/-- Package-level Error (logging.go:141-144): prepends ("golog_id", id) to
the key/value list and calls the default logger's Error. -/
def Error (s : logger) (now id description : String)
    (keysAndValues : List String) : logger × List Effect :=
  logger.Error s now description ("golog_id" :: id :: keysAndValues)

/-- Package-level Fatal (logging.go:135-138). -/
def Fatal (s : logger) (now id description : String)
    (keysAndValues : List String) : logger × List Effect :=
  logger.Fatal s now description ("golog_id" :: id :: keysAndValues)

/-- The staticArgs map built by New (logging.go:234-297): in JSON mode a
non-empty global prefix is stored under "prefix"; a non-empty config ID is
stored under "golog_id" before the varargs are read (so they can override
it); an odd static list is replaced by the corruptStaticFields fallback
pair; then the flat list is folded into the map. -/
def newStaticArgs (isJson : Bool) (envPfx : String) (confId : String)
    (staticKeysAndValues : List String) : List (String × String) :=
  let m0 : List (String × String) :=
    if isJson && envPfx ≠ "" then [("prefix", envPfx)] else []
  let m1 : List (String × String) :=
    if confId ≠ "" then upsert m0 "golog_id" confId else m0
  let skvs : List String :=
    if staticKeysAndValues.length % 2 = 1 then
      ["corruptStaticFields", flattenKeyValues staticKeysAndValues]
    else staticKeysAndValues
  applyPairs m1 skvs

/-- orO with an empty right alternative is the identity. -/
theorem orO_none_right (x : Option String) : orO x none = x := by
  cases x <;> rfl

/-- orO with an empty left alternative yields the right alternative. -/
theorem orO_none_left (x : Option String) : orO none x = x := rfl

/-- A lookup misses exactly when the key is absent from the key list. -/
theorem lookupKey_eq_none_iff (m : List (String × String)) (k : String) :
    lookupKey m k = none ↔ k ∉ fieldKeys m := by
  induction m with
  | nil => simp [lookupKey, fieldKeys]
  | cons kv rest ih =>
      by_cases h : kv.1 = k
      · simp [lookupKey, fieldKeys, h]
      · simp only [lookupKey, if_neg h, fieldKeys, List.map_cons, List.mem_cons,
          not_or, ih]
        constructor
        · intro hnot
          exact ⟨fun hc => h hc.symm, hnot⟩
        · intro hand
          exact hand.2

/-- A key is present exactly when its lookup hits. -/
theorem mem_fieldKeys_iff (m : List (String × String)) (k : String) :
    k ∈ fieldKeys m ↔ lookupKey m k ≠ none := by
  rw [Ne, lookupKey_eq_none_iff, not_not]

/-- The merged choice misses exactly when both alternatives miss. -/
theorem orO_eq_none_iff (a b : Option String) :
    orO a b = none ↔ a = none ∧ b = none := by
  cases a <;> simp [orO]

/-- On an even-length flat list the even-index elements are exactly the
keys of its consecutive pairs. -/
theorem evenIdxElems_eq_keys :
    ∀ (l : List String), l.length % 2 = 0 →
      evenIdxElems l = fieldKeys (pairsOf l)
  | [], _ => rfl
  | [_], h => by simp at h
  | k :: v :: rest, h => by
      have h2 : rest.length % 2 = 0 := by
        simp [List.length] at h
        omega
      simp [evenIdxElems, pairsOf, fieldKeys] at *
      exact evenIdxElems_eq_keys rest h2

/-- Lookup after a map assignment: the assigned key yields the new value,
every other key is unaffected. -/
theorem upsert_lookup (m : List (String × String)) (key value k : String) :
    lookupKey (upsert m key value) k
      = if key = k then some value else lookupKey m k := by
  induction m with
  | nil =>
      by_cases h : key = k <;> simp [upsert, lookupKey, h]
  | cons kv rest ih =>
      by_cases h1 : kv.1 = key
      · by_cases h2 : key = k
        · simp [upsert, lookupKey, h1, h2]
        · have h3 : ¬ kv.1 = k := by
            rw [h1]
            exact h2
          simp [upsert, lookupKey, h1, h2, h3]
      · by_cases h2 : kv.1 = k
        · have h3 : ¬ key = k := fun hc => h1 (by rw [hc, h2])
          have h4 : ¬ k = key := fun hc => h3 hc.symm
          simp [upsert, lookupKey, h1, h2, h3, h4]
        · simp [upsert, lookupKey, h1, h2, ih]

/-- Keys after a map assignment: unchanged when the key was present,
extended by the key otherwise. -/
theorem upsert_keys (m : List (String × String)) (key value : String) :
    fieldKeys (upsert m key value)
      = if key ∈ fieldKeys m then fieldKeys m else fieldKeys m ++ [key] := by
  induction m with
  | nil => simp [upsert, fieldKeys]
  | cons kv rest ih =>
      by_cases h1 : kv.1 = key
      · simp [upsert, fieldKeys, h1]
      · have hne : ¬ key = kv.1 := fun hc => h1 hc.symm
        by_cases h2 : key ∈ fieldKeys rest
        · simp only [upsert, if_neg h1, fieldKeys, List.map_cons] at *
          simp [List.mem_cons, hne, h2, ih]
        · simp only [upsert, if_neg h1, fieldKeys, List.map_cons] at *
          simp [List.mem_cons, hne, h2, ih]

/-- Map assignment preserves key uniqueness. -/
theorem upsert_nodup (m : List (String × String)) (key value : String)
    (h : (fieldKeys m).Nodup) : (fieldKeys (upsert m key value)).Nodup := by
  rw [upsert_keys]
  by_cases hm : key ∈ fieldKeys m
  · simpa [hm] using h
  · simp [hm, List.nodup_append, h]

/-- Folding key/value pairs into a map preserves key uniqueness. -/
theorem applyPairs_nodup :
    ∀ (args : List String) (m : List (String × String)),
      (fieldKeys m).Nodup → (fieldKeys (applyPairs m args)).Nodup
  | [], _, h => h
  | [_], _, h => h
  | k :: v :: rest, m, h => by
      simp only [applyPairs]
      exact applyPairs_nodup rest (upsert m k v) (upsert_nodup m k v h)

/-- Lookup in the map built by the `currentKey` fold: a key present among
the argument pairs yields the argument value (pairs win over the base
map), any other key falls back to the base map.  Requires the argument
keys to be pairwise distinct (otherwise a later pair overwrites an
earlier one). -/
theorem applyPairs_lookup :
    ∀ (args : List String) (m : List (String × String)) (k : String),
      (fieldKeys (pairsOf args)).Nodup →
      lookupKey (applyPairs m args) k
        = orO (lookupKey (pairsOf args) k) (lookupKey m k)
  | [], _, _, _ => rfl
  | [_], _, _, _ => rfl
  | k0 :: v0 :: rest, m, k, h => by
      simp only [pairsOf, fieldKeys, List.map_cons, List.nodup_cons] at h
      have ih := applyPairs_lookup rest (upsert m k0 v0) k h.2
      simp only [applyPairs]
      rw [ih, upsert_lookup]
      by_cases hk : k0 = k
      · have hnot : k ∉ fieldKeys (pairsOf rest) := by
          rw [← hk]
          exact fun hc => h.1 hc
        have hnone : lookupKey (pairsOf rest) k = none :=
          (lookupKey_eq_none_iff _ _).mpr hnot
        simp [pairsOf, lookupKey, hk, hnone, orO]
      · simp [pairsOf, lookupKey, hk]

/-- The static-field combination loop keeps the argument list even. -/
theorem combineStaticAndArgs_length_even :
    ∀ (sf : List (String × String)) (args : List String),
      args.length % 2 = 0 → (combineStaticAndArgs sf args).length % 2 = 0
  | [], _, h => h
  | kv :: rest, args, h => by
      by_cases hmem : kv.1 ∈ evenIdxElems args
      · simp only [combineStaticAndArgs, if_pos hmem]
        exact combineStaticAndArgs_length_even rest args h
      · simp only [combineStaticAndArgs, if_neg hmem]
        apply combineStaticAndArgs_length_even rest
        simp [List.length]
        omega

/-- Lookup among the pairs of the combined list: an argument key keeps its
argument value, a static-only key is served by the static map. -/
theorem combineStaticAndArgs_lookup :
    ∀ (sf : List (String × String)) (args : List String) (k : String),
      args.length % 2 = 0 →
      lookupKey (pairsOf (combineStaticAndArgs sf args)) k
        = orO (lookupKey (pairsOf args) k) (lookupKey sf k)
  | [], args, k, _ => (orO_none_right _).symm
  | kv :: rest, args, k, h => by
      by_cases hmem : kv.1 ∈ evenIdxElems args
      · simp only [combineStaticAndArgs, if_pos hmem]
        rw [combineStaticAndArgs_lookup rest args k h]
        by_cases hk : kv.1 = k
        · have hkeys : k ∈ fieldKeys (pairsOf args) := by
            rw [← evenIdxElems_eq_keys args h]
            exact hk ▸ hmem
          cases hcase : lookupKey (pairsOf args) k with
          | none => exact absurd ((lookupKey_eq_none_iff _ _).mp hcase) (by simpa using hkeys)
          | some v => simp [lookupKey, hk, orO]
        · simp [lookupKey, hk]
      · have hlen : (kv.1 :: kv.2 :: args).length % 2 = 0 := by
          simp [List.length]
          omega
        simp only [combineStaticAndArgs, if_neg hmem]
        rw [combineStaticAndArgs_lookup rest (kv.1 :: kv.2 :: args) k hlen]
        by_cases hk : kv.1 = k
        · have hnone : lookupKey (pairsOf args) k = none := by
            apply (lookupKey_eq_none_iff _ _).mpr
            rw [← evenIdxElems_eq_keys args h]
            exact hk ▸ hmem
          simp [pairsOf, lookupKey, hk, hnone, orO]
        · simp [pairsOf, lookupKey, hk]

/-- The combination loop never introduces a duplicate key: each prepended
static key is absent from the current argument keys. -/
theorem combineStaticAndArgs_nodup :
    ∀ (sf : List (String × String)) (args : List String),
      args.length % 2 = 0 → (fieldKeys (pairsOf args)).Nodup →
      (fieldKeys (pairsOf (combineStaticAndArgs sf args))).Nodup
  | [], _, _, hn => hn
  | kv :: rest, args, h, hn => by
      by_cases hmem : kv.1 ∈ evenIdxElems args
      · simp only [combineStaticAndArgs, if_pos hmem]
        exact combineStaticAndArgs_nodup rest args h hn
      · simp only [combineStaticAndArgs, if_neg hmem]
        apply combineStaticAndArgs_nodup rest (kv.1 :: kv.2 :: args)
          (by simp [List.length]; omega)
        simp only [pairsOf, fieldKeys, List.map_cons, List.nodup_cons]
        refine ⟨fun hc => hmem ?_, hn⟩
        rw [evenIdxElems_eq_keys args h]
        exact hc

/-- When no even-index element equals "golog_id", the extraction loop
finds nothing and leaves the list unchanged. -/
theorem extractGologId_absent :
    ∀ (args : List String), "golog_id" ∉ evenIdxElems args →
      extractGologId args = ("", args)
  | [], _ => rfl
  | [_], _ => rfl
  | k :: v :: rest, h => by
      simp only [evenIdxElems, List.mem_cons, not_or] at h
      have hk : ¬ k = "golog_id" := fun hc => h.1 hc.symm
      simp [extractGologId, hk, extractGologId_absent rest h.2]

/-- When "golog_id" first occurs at an even index followed by a value, the
extraction loop returns that value and removes exactly that pair. -/
theorem extractGologId_present :
    ∀ (pre : List String), pre.length % 2 = 0 →
      "golog_id" ∉ evenIdxElems pre →
      ∀ (v : String) (post : List String),
        extractGologId (pre ++ "golog_id" :: v :: post) = (v, pre ++ post)
  | [], _, _, v, post => by simp [extractGologId]
  | [_], h, _, _, _ => by simp at h
  | a :: b :: pre, h, hmem, v, post => by
      simp only [evenIdxElems, List.mem_cons, not_or] at hmem
      have ha : ¬ a = "golog_id" := fun hc => hmem.1 hc.symm
      have h2 : pre.length % 2 = 0 := by
        simp [List.length] at h
        omega
      simp [extractGologId, ha, extractGologId_present pre h2 hmem.2 v post]

/-- C1: for every threshold T stored in the logger and every severity-named
call with candidate severity S (Fatal=0 ... Trace=5), the call writes a
rendered line if and only if S's rank is at most T's rank, and a gated
call produces no effect at all (no write, no exit). -/
theorem c1_severity_gating (s : logger) (now description : String)
    (kvs : List String) :
    (((logger.Fatal s now description kvs).2 = []) ↔ s.level < LevelFatal)
    ∧ ((∃ line, Effect.writeLine line ∈ (logger.Fatal s now description kvs).2)
        ↔ LevelFatal ≤ s.level)
    ∧ (((logger.Error s now description kvs).2 = []) ↔ s.level < LevelError)
    ∧ ((∃ line, Effect.writeLine line ∈ (logger.Error s now description kvs).2)
        ↔ LevelError ≤ s.level)
    ∧ (((logger.Warn s now description kvs).2 = []) ↔ s.level < LevelWarn)
    ∧ ((∃ line, Effect.writeLine line ∈ (logger.Warn s now description kvs).2)
        ↔ LevelWarn ≤ s.level)
    ∧ (((logger.Info s now description kvs).2 = []) ↔ s.level < LevelInfo)
    ∧ ((∃ line, Effect.writeLine line ∈ (logger.Info s now description kvs).2)
        ↔ LevelInfo ≤ s.level)
    ∧ (((logger.Debug s now description kvs).2 = []) ↔ s.level < LevelDebug)
    ∧ ((∃ line, Effect.writeLine line ∈ (logger.Debug s now description kvs).2)
        ↔ LevelDebug ≤ s.level)
    ∧ (((logger.Trace s now description kvs).2 = []) ↔ s.level < LevelTrace)
    ∧ ((∃ line, Effect.writeLine line ∈ (logger.Trace s now description kvs).2)
        ↔ LevelTrace ≤ s.level) := by
  refine ⟨?_, ?_, ?_, ?_, ?_, ?_, ?_, ?_, ?_, ?_, ?_, ?_⟩
  · by_cases h : s.level < LevelFatal <;> simp [logger.Fatal, logMessage, h]
  · by_cases h : s.level < LevelFatal <;> simp [logger.Fatal, logMessage, h] <;> omega
  · by_cases h : s.level < LevelError <;> simp [logger.Error, logMessage, h]
  · by_cases h : s.level < LevelError <;> simp [logger.Error, logMessage, h] <;> omega
  · by_cases h : s.level < LevelWarn <;> simp [logger.Warn, logMessage, h]
  · by_cases h : s.level < LevelWarn <;> simp [logger.Warn, logMessage, h] <;> omega
  · by_cases h : s.level < LevelInfo <;> simp [logger.Info, logMessage, h]
  · by_cases h : s.level < LevelInfo <;> simp [logger.Info, logMessage, h] <;> omega
  · by_cases h : s.level < LevelDebug <;> simp [logger.Debug, logMessage, h]
  · by_cases h : s.level < LevelDebug <;> simp [logger.Debug, logMessage, h] <;> omega
  · by_cases h : s.level < LevelTrace <;> simp [logger.Trace, logMessage, h]
  · by_cases h : s.level < LevelTrace <;> simp [logger.Trace, logMessage, h] <;> omega

/-- C2: a Fatal call that passes the gate renders and writes exactly one
line and only then invokes the process-termination primitive (the effect
list is temporally ordered); a gated Fatal call has no effect at all —
no render, no write, no exit. -/
theorem c2_fatal_order (s : logger) (now description : String)
    (kvs : List String) :
    (s.level < LevelFatal → (logger.Fatal s now description kvs).2 = [])
    ∧ (LevelFatal ≤ s.level →
        ∃ line, (logger.Fatal s now description kvs).2
          = [Effect.writeLine line, Effect.exit 1]) := by
  constructor
  · intro h
    simp [logger.Fatal, h]
  · intro h
    have hno : ¬ s.level < LevelFatal := by omega
    simp [logger.Fatal, hno, logMessage]

/-- Witness for C2 at a concrete enabled logger. -/
theorem c2_fatal_order_witness :
    LevelFatal ≤ (0 : Int)
    ∧ ∃ line,
        (logger.Fatal ⟨0, RenderMode.plainText, [], 0⟩ "t" "boom" []).2
          = [Effect.writeLine line, Effect.exit 1] :=
  ⟨by decide,
    (c2_fatal_order ⟨0, RenderMode.plainText, [], 0⟩ "t" "boom" []).2 (by decide)⟩

/-- C8: the package-level Error call on a plaintext logger with no flags,
channel id "Bilbo", the given message and the four dynamic arguments
writes exactly the expected pipe-delimited line plus newline, with fields
rendered key='value', space-joined, in call-site order. -/
theorem c8_plaintext_scenario :
    (Golog.Error ⟨LevelTrace, RenderMode.plainText, [], 0⟩ "now" "Bilbo"
        "Not all those who wander are lost." ["key", "value", "foo", "bar"]).2
      = [Effect.writeLine
          "ERROR | Bilbo | Not all those who wander are lost. | key='value' foo='bar'\n"] := by
  decide

/-- C9: with an empty channel id the channel segment is omitted entirely
(no doubled separator); the reserved "golog_id" key, when present at an
even index with a value, is removed from the rendered fields and used as
the channel id, and when absent the argument list is unchanged. -/
theorem c9_channel_id (args pre post : List String) (v : String)
    (habs : "golog_id" ∉ evenIdxElems args)
    (hev : pre.length % 2 = 0)
    (hpre : "golog_id" ∉ evenIdxElems pre) :
    (Golog.Error ⟨LevelTrace, RenderMode.plainText, [], 0⟩ "now" "" "msg" []).2
      = [Effect.writeLine "ERROR | msg\n"]
    ∧ extractGologId args = ("", args)
    ∧ extractGologId (pre ++ "golog_id" :: v :: post) = (v, pre ++ post) :=
  ⟨by decide, extractGologId_absent args habs,
    extractGologId_present pre hev hpre v post⟩

/-- Witness for C9 at concrete argument lists. -/
theorem c9_channel_id_witness :
    extractGologId ["k", "v"] = ("", ["k", "v"])
    ∧ extractGologId (["a", "1"] ++ "golog_id" :: "B" :: ["z"])
        = ("B", ["a", "1"] ++ ["z"]) :=
  ⟨(c9_channel_id ["k", "v"] ["a", "1"] ["z"] "B" (by decide) (by decide)
      (by decide)).2.1,
    (c9_channel_id ["k", "v"] ["a", "1"] ["z"] "B" (by decide) (by decide)
      (by decide)).2.2⟩

/-- C10: every severity-named call leaves the logger's own state (severity
threshold, static field map, render formatter, timestamp flags) exactly as
it was, for any argument list including corrupt odd-length ones; state is
only changed by the explicit setters (SetLevel, SetTimestampFlags,
SetStaticField; SetOutput replaces only the unmodelled sink). -/
theorem c10_frame_effect (s : logger) (now description : String)
    (kvs : List String) :
    (logger.Fatal s now description kvs).1 = s
    ∧ (logger.Error s now description kvs).1 = s
    ∧ (logger.Warn s now description kvs).1 = s
    ∧ (logger.Info s now description kvs).1 = s
    ∧ (logger.Debug s now description kvs).1 = s
    ∧ (logger.Trace s now description kvs).1 = s := by
  refine ⟨?_, ?_, ?_, ?_, ?_, ?_⟩
  · by_cases h : s.level < LevelFatal <;> simp [logger.Fatal, h]
  · by_cases h : s.level < LevelError <;> simp [logger.Error, h]
  · by_cases h : s.level < LevelWarn <;> simp [logger.Warn, h]
  · by_cases h : s.level < LevelInfo <;> simp [logger.Info, h]
  · by_cases h : s.level < LevelDebug <;> simp [logger.Debug, h]
  · by_cases h : s.level < LevelTrace <;> simp [logger.Trace, h]

/-- C3: merging a static field set with an even-length dynamic overlay
whose keys are distinct yields, in both render modes, the key-union in
which every overlay key carries the overlay value, static-only keys keep
the static value (stated as one lookup equation: the merged lookup is the
overlay lookup, falling back to the static lookup), the key set is the
union, and no key occurs twice.  The plaintext side speaks about the pair
list the renderer renders (the combination loop's output); the JSON side
about the entry's field map.  Two concrete conjuncts pin the rendered
forms for static {a:"1"} and dynamic {a:"2", b:"3"}. -/
theorem c3_merge_override (staticFields : List (String × String))
    (args : List String)
    (hev : args.length % 2 = 0)
    (hargs : (fieldKeys (pairsOf args)).Nodup)
    (hstat : (fieldKeys staticFields).Nodup) :
    (∀ k, lookupKey (pairsOf (combineStaticAndArgs staticFields args)) k
        = orO (lookupKey (pairsOf args) k) (lookupKey staticFields k))
    ∧ (∀ k, k ∈ fieldKeys (pairsOf (combineStaticAndArgs staticFields args))
        ↔ k ∈ fieldKeys (pairsOf args) ∨ k ∈ fieldKeys staticFields)
    ∧ (fieldKeys (pairsOf (combineStaticAndArgs staticFields args))).Nodup
    ∧ (∀ k, lookupKey (applyPairs staticFields args) k
        = orO (lookupKey (pairsOf args) k) (lookupKey staticFields k))
    ∧ (∀ k, k ∈ fieldKeys (applyPairs staticFields args)
        ↔ k ∈ fieldKeys (pairsOf args) ∨ k ∈ fieldKeys staticFields)
    ∧ (fieldKeys (applyPairs staticFields args)).Nodup
    ∧ formatLogEventAsPlainText 0 "INFO" "m" [("a", "1")] ["a", "2", "b", "3"]
        = "INFO | m | a='2' b='3'"
    ∧ (formatLogEventAsJson "t" 0 "INFO" "m" [("a", "1")]
        ["a", "2", "b", "3"]).Fields = [("a", "2"), ("b", "3")] := by
  refine ⟨fun k => combineStaticAndArgs_lookup staticFields args k hev,
    ?_, combineStaticAndArgs_nodup staticFields args hev hargs,
    fun k => applyPairs_lookup args staticFields k hargs,
    ?_, applyPairs_nodup args staticFields hstat, by decide, by decide⟩
  · intro k
    rw [mem_fieldKeys_iff, combineStaticAndArgs_lookup staticFields args k hev,
      mem_fieldKeys_iff, mem_fieldKeys_iff, Ne, orO_eq_none_iff]
    tauto
  · intro k
    rw [mem_fieldKeys_iff, applyPairs_lookup args staticFields k hargs,
      mem_fieldKeys_iff, mem_fieldKeys_iff, Ne, orO_eq_none_iff]
    tauto

/-- Witness for C3 at the spec's concrete field sets. -/
theorem c3_merge_override_witness :
    ((["a", "2", "b", "3"] : List String).length % 2 = 0
      ∧ (fieldKeys (pairsOf ["a", "2", "b", "3"])).Nodup
      ∧ (fieldKeys [("a", "1")]).Nodup)
    ∧ lookupKey (pairsOf (combineStaticAndArgs [("a", "1")]
        ["a", "2", "b", "3"])) "a" = some "2" :=
  ⟨⟨by decide, by decide, by decide⟩, by
    have h := (c3_merge_override [("a", "1")] ["a", "2", "b", "3"]
      (by decide) (by decide) (by decide)).1 "a"
    rw [h]
    decide⟩

/-- C4 counterexample: a per-call odd-length list that begins with the
reserved "golog_id" key is NOT serialized in its entirety under the
fallback key — the leading pair is carved out first, and only the
remainder lands under "corruptFields". -/
theorem c4_corruption_counterexample :
    fixCorruptKeysAndValues ["golog_id", "X", "a"]
      = ["golog_id", "X", "corruptFields", "a"]
    ∧ fixCorruptKeysAndValues ["golog_id", "X", "a"]
      ≠ ["corruptFields", flattenKeyValues ["golog_id", "X", "a"]]
    ∧ flattenKeyValues ["golog_id", "X", "a"] = "golog_id, X, a" := by
  refine ⟨by decide, by decide, by decide⟩

/-- C4 (amended): an odd-length static sequence is replaced in its
entirety by the single "corruptStaticFields" field; an odd-length
per-call sequence is replaced in its entirety by the single
"corruptFields" field, except that a sequence beginning with the
reserved "golog_id" key first has that key and its value carved out and
preserved, with only the remainder serialized; both fallback fields
coexist in one event; and the spec's concrete example renders exactly one
corruption field with value "key, value, foo". -/
theorem c4_corruption_amended :
    (∀ skvs : List String, skvs.length % 2 = 1 →
        newStaticArgs false "" "" skvs
          = [("corruptStaticFields", flattenKeyValues skvs)])
    ∧ (∀ kvs : List String, kvs.length % 2 = 1 →
        (∀ (v : String) (rest : List String), kvs ≠ "golog_id" :: v :: rest) →
        fixCorruptKeysAndValues kvs = ["corruptFields", flattenKeyValues kvs])
    ∧ (∀ (v : String) (rest : List String),
        ("golog_id" :: v :: rest).length % 2 = 1 →
        fixCorruptKeysAndValues ("golog_id" :: v :: rest)
          = ["golog_id", v, "corruptFields", flattenKeyValues rest])
    ∧ applyPairs (newStaticArgs false "" "" ["s", "v", "sOdd"])
          (fixCorruptKeysAndValues ["f", "w", "dOdd"])
        = [("corruptStaticFields", "s, v, sOdd"), ("corruptFields", "f, w, dOdd")]
    ∧ (logger.Error ⟨LevelTrace, RenderMode.plainText, [], 0⟩ "now"
          "Not all those who wander are lost." ["key", "value", "foo"]).2
        = [Effect.writeLine
            "ERROR | Not all those who wander are lost. | corruptFields='key, value, foo'\n"] := by
  refine ⟨?_, ?_, ?_, by decide, by decide⟩
  · intro skvs h
    simp [newStaticArgs, h, applyPairs, upsert]
  · intro kvs h hne
    rcases kvs with _ | ⟨k, _ | ⟨v2, rest2⟩⟩
    · simp at h
    · simp [fixCorruptKeysAndValues]
    · have hk : ¬ k = "golog_id" := fun hc => hne v2 rest2 (by rw [hc])
      unfold fixCorruptKeysAndValues
      rw [if_pos h]
      simp [hk]
  · intro v rest h
    unfold fixCorruptKeysAndValues
    rw [if_pos h]
    simp

/-- Witness for C4 at concrete odd-length sequences. -/
theorem c4_corruption_witness :
    newStaticArgs false "" "" ["x"] = [("corruptStaticFields", flattenKeyValues ["x"])]
    ∧ fixCorruptKeysAndValues ["y"] = ["corruptFields", flattenKeyValues ["y"]]
    ∧ fixCorruptKeysAndValues ["golog_id", "B", "z"]
        = ["golog_id", "B", "corruptFields", flattenKeyValues ["z"]] :=
  ⟨c4_corruption_amended.1 ["x"] (by decide),
    c4_corruption_amended.2.1 ["y"] (by decide)
      (by
        intro v rest hc
        simp at hc),
    c4_corruption_amended.2.2.1 "B" ["z"] (by decide)⟩

/-- C5 counterexample: a key repeated inside the dynamic call-site list is
rendered once per pair in plaintext mode — the output line carries the key
twice, so duplicates are NOT resolved last-writer-wins before plaintext
rendering. -/
theorem c5_unique_keys_counterexample :
    formatLogEventAsPlainText 0 "ERROR" "msg" [] ["a", "1", "a", "2"]
      = "ERROR | msg | a='1' a='2'"
    ∧ fieldKeys (pairsOf (combineStaticAndArgs [] ["a", "1", "a", "2"]))
        = ["a", "a"]
    ∧ ¬ (fieldKeys (pairsOf (combineStaticAndArgs []
        ["a", "1", "a", "2"]))).Nodup := by
  refine ⟨by decide, by decide, by decide⟩

/-- C5 (amended): a JSON-mode event never carries duplicate keys (the
field map resolves repeats last-writer-wins); a plaintext-mode event
carries no duplicate keys provided the dynamic list itself repeats no key
— a repetition inside the dynamic list is rendered once per occurrence. -/
theorem c5_unique_keys_amended (staticFields : List (String × String))
    (args : List String) :
    ((fieldKeys staticFields).Nodup →
        (fieldKeys (applyPairs staticFields args)).Nodup)
    ∧ (args.length % 2 = 0 → (fieldKeys (pairsOf args)).Nodup →
        (fieldKeys (pairsOf (combineStaticAndArgs staticFields args))).Nodup) :=
  ⟨fun h => applyPairs_nodup args staticFields h,
    fun he hn => combineStaticAndArgs_nodup staticFields args he hn⟩

/-- Witness for C5: the JSON field map deduplicates even the repeated
dynamic key of the counterexample. -/
theorem c5_unique_keys_witness :
    (fieldKeys [("s", "v")]).Nodup
    ∧ (fieldKeys (applyPairs [("s", "v")] ["a", "1", "a", "2"])).Nodup :=
  ⟨by decide,
    (c5_unique_keys_amended [("s", "v")] ["a", "1", "a", "2"]).1 (by decide)⟩

/-- C6 counterexample: a JSON-mode logger constructed with channel id
"Bilbo" produces a document whose members are exactly ts, lvl, msg,
fields — there is no top-level name/channelId member even though the
channel id is non-empty; the id travels as the "golog_id" key inside
fields. -/
theorem c6_json_members_counterexample :
    newStaticArgs true "" "Bilbo" [] = [("golog_id", "Bilbo")]
    ∧ (jsonEntryMembers (formatLogEventAsJson "TS" 0 LevelErrorName "oh no"
        [("golog_id", "Bilbo")] [])).map Prod.fst = ["ts", "lvl", "msg", "fields"]
    ∧ "name" ∉ (jsonEntryMembers (formatLogEventAsJson "TS" 0 LevelErrorName
        "oh no" [("golog_id", "Bilbo")] [])).map Prod.fst
    ∧ "channelId" ∉ (jsonEntryMembers (formatLogEventAsJson "TS" 0 LevelErrorName
        "oh no" [("golog_id", "Bilbo")] [])).map Prod.fst
    ∧ lookupKey (formatLogEventAsJson "TS" 0 LevelErrorName "oh no"
        [("golog_id", "Bilbo")] []).Fields "golog_id" = some "Bilbo" := by
  refine ⟨by decide, by decide, by decide, by decide, by decide⟩

/-- C6 (amended): every JSON-mode document carries ts (the render-time
timestamp) and lvl (the severity name) always; msg is present exactly when
the message is non-empty; fields is present exactly when the merged field
map is non-empty; no top-level name/channelId member is ever produced (a
channel id supplied at construction travels as the "golog_id" key inside
fields); and the error("oh no") round trip decodes to lvl "ERROR", msg
"oh no" and no fields member. -/
theorem c6_json_members_amended (now : String) (flags : Int)
    (level msg : String) (staticFields : List (String × String))
    (extraFields : List String) :
    (("ts", jsonValue.str now) ∈ jsonEntryMembers
        (formatLogEventAsJson now flags level msg staticFields extraFields))
    ∧ (("lvl", jsonValue.str level) ∈ jsonEntryMembers
        (formatLogEventAsJson now flags level msg staticFields extraFields))
    ∧ "name" ∉ (jsonEntryMembers
        (formatLogEventAsJson now flags level msg staticFields extraFields)).map
          Prod.fst
    ∧ "channelId" ∉ (jsonEntryMembers
        (formatLogEventAsJson now flags level msg staticFields extraFields)).map
          Prod.fst
    ∧ (("msg" ∈ (jsonEntryMembers
        (formatLogEventAsJson now flags level msg staticFields extraFields)).map
          Prod.fst) ↔ msg ≠ "")
    ∧ (("fields" ∈ (jsonEntryMembers
        (formatLogEventAsJson now flags level msg staticFields extraFields)).map
          Prod.fst) ↔ applyPairs staticFields extraFields ≠ [])
    ∧ jsonEntryMembers (formatLogEventAsJson now 0 LevelErrorName "oh no" [] [])
        = [("ts", jsonValue.str now), ("lvl", jsonValue.str "ERROR"),
            ("msg", jsonValue.str "oh no")] := by
  refine ⟨?_, ?_, ?_, ?_, ?_, ?_, rfl⟩ <;>
    by_cases hm : msg = "" <;>
      by_cases hf : applyPairs staticFields extraFields = [] <;>
        simp [jsonEntryMembers, formatLogEventAsJson, hm, hf]

/-- C7 counterexample: when the marshal primitive reports failure the
renderer returns the empty string — not a document carrying the timestamp
and a failure message (the empty string contains neither). -/
theorem c7_marshal_failure_counterexample :
    renderJsonEntryWith (fun _ => none) ⟨"TS123", "ERROR", "m", []⟩ = ""
    ∧ hasSub (renderJsonEntryWith (fun _ => none) ⟨"TS123", "ERROR", "m", []⟩)
        "TS123" = false
    ∧ hasSub (renderJsonEntryWith (fun _ => none) ⟨"TS123", "ERROR", "m", []⟩)
        "failed to marshal log entry" = false := by
  refine ⟨rfl, by decide, by decide⟩

/-- C7 (amended): the renderer never raises a reported marshal failure to
the caller — the error value is discarded; on failure it returns the
string conversion of the nil byte slice, i.e. the empty string (no
fallback document is built); on success it returns the encoding
unchanged. -/
theorem c7_marshal_failure_amended (marshal : jsonLogEntry → Option String)
    (entry : jsonLogEntry) :
    (marshal entry = none → renderJsonEntryWith marshal entry = "")
    ∧ (∀ encoded, marshal entry = some encoded →
        renderJsonEntryWith marshal entry = encoded) := by
  constructor
  · intro h
    simp [renderJsonEntryWith, h]
  · intro encoded h
    simp [renderJsonEntryWith, h]

/-- Witness for C7 at a concrete entry and failing primitive. -/
theorem c7_marshal_failure_witness :
    renderJsonEntryWith (fun _ => none) ⟨"T", "L", "M", []⟩ = "" :=
  (c7_marshal_failure_amended (fun _ => none) ⟨"T", "L", "M", []⟩).1 rfl

end Golog
